import Mathlib

/-!
Shallow embedding of the position lifecycle reconciliation and settlement
engine of `src/app.py` (a trading-position Telegram notifier).  Python
floats are modelled as rationals, Python dicts keyed by strings as
association lists, and the Upstash/Redis durable store as an explicit
state record whose per-call availability is driven by a schedule, mirroring
`Redis.cmd`'s behaviour of returning `None` after any network error.
-/

/-- Python `str.startswith` on explicit character lists. -/
def startsWithCL : List Char → List Char → Bool
  | [], _ => true
  | _ :: _, [] => false
  | a :: as, b :: bs => a == b && startsWithCL as bs

/-- Python substring test (`needle in hay`) on character lists. -/
def containsCL (n : List Char) : List Char → Bool
  | [] => n.isEmpty
  | b :: bs => startsWithCL n (b :: bs) || containsCL n bs

/-- Python `needle in hay` for strings. -/
def strContains (hay needle : String) : Bool :=
  containsCL needle.data hay.data

/-- Python `str.lower()` (ASCII, as used by app.py). -/
def strLower (s : String) : String :=
  String.mk (s.data.map Char.toLower)

/-- Python `str.upper()` (ASCII, as used by app.py). -/
def strUpper (s : String) : String :=
  String.mk (s.data.map Char.toUpper)

/-- `re.sub(r"[^A-Za-z0-9]", "", s).upper()` from `_income_split`. -/
def normSym (s : String) : String :=
  String.mk ((s.data.filter Char.isAlphanum).map Char.toUpper)

/-- Python `str.strip()`: drop leading and trailing whitespace. -/
def strStrip (s : String) : String :=
  String.mk (((s.data.dropWhile Char.isWhitespace).reverse.dropWhile
    Char.isWhitespace).reverse)

/-- Python `a or b` where `a` is a string-valued optional field
(`None` and `""` are falsy). -/
def pyOrS : Option String → String → String
  | none, b => b
  | some s, b => if s = "" then b else s

/-- Python `a or b` where `a` is a numeric optional field
(`None` and `0` are falsy); the numeric value is the result of `asf`. -/
def pyOrQ : Option ℚ → ℚ → ℚ
  | none, b => b
  | some x, b => if x = 0 then b else x

/-- Python `hay.endswith(needle)`. -/
def strEndsWith (hay needle : String) : Bool :=
  startsWithCL needle.data.reverse hay.data.reverse

/-- Python `s[:-n] or s`: drop the last `n` characters, but fall back to
`s` itself when the result is empty. -/
def dropTailOrSelf (s : String) (n : Nat) : String :=
  pyOrS (some (String.mk (s.data.take (s.data.length - n)))) s

/-- `base_asset` from app.py: everything before the first separator of an
upper-cased symbol (`s.split(sep)[0]`), else the symbol with a known quote
suffix removed (`s[:-len(q)] or s`). -/
def base_asset (symbol : String) : String :=
  let s := strUpper symbol
  if strContains s "-" then String.mk (s.data.takeWhile (fun c => c ≠ '-'))
  else if strContains s "/" then String.mk (s.data.takeWhile (fun c => c ≠ '/'))
  else if strContains s "_" then String.mk (s.data.takeWhile (fun c => c ≠ '_'))
  else if strEndsWith s "USDT" then dropTailOrSelf s 4
  else if strEndsWith s "USD" then dropTailOrSelf s 3
  else if strEndsWith s "PERP" then dropTailOrSelf s 4
  else if strEndsWith s ".P" then dropTailOrSelf s 2
  else s

/-- A normalized open position, the output shape of `norm_pos` in app.py
(`u_pnl_pct` and the retained raw record are dropped: nothing downstream
that the engine persists reads them). -/
structure Position where
  symbol : String
  base : String
  side : String
  qty : ℚ
  entry_price : ℚ
  mark_price : ℚ
  u_pnl : ℚ
  r_pnl : ℚ
  leverage : ℚ
  margin_mode : String
  value : ℚ
  margin : ℚ
deriving DecidableEq

/-- A raw exchange position record, restricted to the alias fields
`norm_pos` reads.  String-typed JSON fields are `Option String`
(`none` = key absent), numeric fields carry the value `asf` would
parse (`none` = key absent; a `0` value is falsy for Python `or`). -/
structure RawPos where
  symbol : Option String := none
  ticker : Option String := none
  pair : Option String := none
  positionAmt : Option ℚ := none
  positionSize : Option ℚ := none
  position : Option ℚ := none
  positionAmount : Option ℚ := none
  holdVolume : Option ℚ := none
  size : Option ℚ := none
  positionSide : Option String := none
  side : Option String := none
  holdSide : Option String := none
  posSide : Option String := none
  availableAmt : Option ℚ := none
  avgPrice : Option ℚ := none
  entryPrice : Option ℚ := none
  avgOpenPrice : Option ℚ := none
  openPrice : Option ℚ := none
  markPrice : Option ℚ := none
  lastPrice : Option ℚ := none
  indexPrice : Option ℚ := none
  closePrice : Option ℚ := none
  unrealizedProfit : Option ℚ := none
  unRealizedProfit : Option ℚ := none
  unrealizedPnl : Option ℚ := none
  upl : Option ℚ := none
  positionProfit : Option ℚ := none
  realizedProfit : Option ℚ := none
  realisedPnl : Option ℚ := none
  realizedPnl : Option ℚ := none
  rpl : Option ℚ := none
  leverage : Option ℚ := none
  positionLeverage : Option ℚ := none
  marginType : Option String := none
  marginMode : Option String := none
  isolated : Option String := none
  positionValue : Option ℚ := none
  notional : Option ℚ := none
  positionNotional : Option ℚ := none
  value : Option ℚ := none
  positionMargin : Option ℚ := none
  isolatedMargin : Option ℚ := none
  margin : Option ℚ := none
deriving DecidableEq

/-- The symbol `norm_pos` resolves:
`str(it.get("symbol") or it.get("ticker") or it.get("pair") or "").strip()`. -/
def resolvedSymbol (it : RawPos) : String :=
  strStrip (pyOrS it.symbol (pyOrS it.ticker (pyOrS it.pair "")))

/-- The signed quantity `norm_pos` resolves from its alias chain. -/
def resolvedQtySigned (it : RawPos) : ℚ :=
  pyOrQ it.positionAmt (pyOrQ it.positionSize (pyOrQ it.position
    (pyOrQ it.positionAmount (pyOrQ it.holdVolume (pyOrQ it.size 0)))))

/-- The quantity after the `availableAmt` fallback (`qty = abs(signed)`,
falling back to `abs(availableAmt)` when non-positive). -/
def resolvedQty (it : RawPos) : ℚ :=
  let qty0 := |resolvedQtySigned it|
  if qty0 ≤ 0 then |pyOrQ it.availableAmt 0| else qty0

/-- `norm_pos` from app.py, translated field for field. -/
def norm_pos (it : RawPos) : Option Position :=
  let symbol := resolvedSymbol it
  if symbol = "" then none
  else
    let qty_signed := resolvedQtySigned it
    let sraw := strLower (pyOrS it.positionSide (pyOrS it.side
      (pyOrS it.holdSide (pyOrS it.posSide ""))))
    let sideV :=
      if strContains sraw "short" || sraw = "sell" || sraw = "2" then "Short"
      else if strContains sraw "long" || sraw = "buy" || sraw = "1" then "Long"
      else if qty_signed < 0 then "Short" else "Long"
    let qty := resolvedQty it
    if qty ≤ 0 then none
    else
      let entry := pyOrQ it.avgPrice (pyOrQ it.entryPrice
        (pyOrQ it.avgOpenPrice (pyOrQ it.openPrice 0)))
      let mark := pyOrQ it.markPrice (pyOrQ it.lastPrice
        (pyOrQ it.indexPrice (pyOrQ it.closePrice entry)))
      let uplV := pyOrQ it.unrealizedProfit (pyOrQ it.unRealizedProfit
        (pyOrQ it.unrealizedPnl (pyOrQ it.upl (pyOrQ it.positionProfit 0))))
      let rplV := pyOrQ it.realizedProfit (pyOrQ it.realisedPnl
        (pyOrQ it.realizedPnl (pyOrQ it.rpl 0)))
      let lev := pyOrQ it.leverage (pyOrQ it.positionLeverage 0)
      let mm := pyOrS it.marginType (pyOrS it.marginMode (pyOrS it.isolated ""))
      let margin_mode :=
        if strContains (strLower mm) "isol" || mm = "true" || mm = "1"
        then "Isolated" else "Cross"
      let valueV := pyOrQ it.positionValue (pyOrQ it.notional
        (pyOrQ it.positionNotional (pyOrQ it.value (qty * mark))))
      let marginV := pyOrQ it.positionMargin (pyOrQ it.isolatedMargin
        (pyOrQ it.margin (if lev > 0 then valueV / lev else 0)))
      let levF := if lev ≤ 0 then (if marginV > 0 then valueV / marginV else 1) else lev
      some
        { symbol := symbol, base := base_asset symbol, side := sideV, qty := qty,
          entry_price := entry, mark_price := mark, u_pnl := uplV, r_pnl := rplV,
          leverage := levF, margin_mode := margin_mode, value := valueV,
          margin := marginV }

/-- A raw settlement ("income") record, restricted to the alias fields
`_income_split` reads.  `type'` stands for the JSON key `"type"`. -/
structure IncomeRec where
  symbol : Option String := none
  contract : Option String := none
  ticker : Option String := none
  incomeType : Option String := none
  type' : Option String := none
  bizType : Option String := none
  income_type : Option String := none
  income : Option ℚ := none
  profit : Option ℚ := none
  amount : Option ℚ := none
  realizedPnl : Option ℚ := none
deriving DecidableEq

/-- `str(r.get("symbol") or r.get("contract") or r.get("ticker") or "").strip()`. -/
def recSymOf (r : IncomeRec) : String :=
  strStrip (pyOrS r.symbol (pyOrS r.contract (pyOrS r.ticker "")))

/-- `str(r.get("incomeType") or r.get("type") or r.get("bizType") or
r.get("income_type") or "").lower()`. -/
def typOf (r : IncomeRec) : String :=
  strLower (pyOrS r.incomeType (pyOrS r.type' (pyOrS r.bizType (pyOrS r.income_type ""))))

/-- `asf(r.get("income") or r.get("profit") or r.get("amount") or
r.get("realizedPnl") or 0)`. -/
def incOf (r : IncomeRec) : ℚ :=
  pyOrQ r.income (pyOrQ r.profit (pyOrQ r.amount (pyOrQ r.realizedPnl 0)))

/-- `any(x in typ for x in ["commission", "fee", "funding", "fund"])`. -/
def isFeeType (typ : String) : Bool :=
  strContains typ "commission" || strContains typ "fee" ||
    strContains typ "funding" || strContains typ "fund"

/-- The symbol filter of `_income_split`: a record survives unless its own
non-empty normalized symbol and a non-empty normalized request symbol
contain neither one the other. -/
def keepRec (reqNorm : String) (r : IncomeRec) : Bool :=
  let recSym := recSymOf r
  if recSym ≠ "" then
    let recNorm := normSym recSym
    !(reqNorm ≠ "" && recNorm ≠ "" &&
      !strContains recNorm reqNorm && !strContains reqNorm recNorm)
  else true

/-- The accumulation loop of `_income_split`:
`(closed_sum, fee_funding_sum, realized_sum)` over the surviving records. -/
def splitSums (reqNorm : String) : List IncomeRec → ℚ × ℚ × ℚ
  | [] => (0, 0, 0)
  | r :: rs =>
    let rest := splitSums reqNorm rs
    if keepRec reqNorm r then
      let inc := incOf r
      if isFeeType (typOf r) then (rest.1, rest.2.1 + inc, rest.2.2 + inc)
      else (rest.1 + inc, rest.2.1, rest.2.2 + inc)
    else rest

/-- `_income_split` from app.py: `none` exactly when the settlement source
returned zero records, otherwise the three accumulated sums.  The fetch
itself is supplied as the record list (the time window is handled by the
external fetch and does not alter the arithmetic). -/
def income_split (symbol : String) (recs : List IncomeRec) : Option (ℚ × ℚ × ℚ) :=
  if recs.isEmpty then none
  else some (splitSums (normSym symbol) recs)

/-- `fee_calc` from app.py: income-based split when available, otherwise
the taker-fee fallback estimator applied to the caller's estimate. -/
def fee_calc (feeRate : ℚ) (symbol : String) (recs : List IncomeRec)
    (closed entry_v exit_v : ℚ) : ℚ × ℚ × ℚ :=
  match income_split symbol recs with
  | some (c, ff, _real) => (c, ff, c + ff)
  | none =>
    let ff := -(|entry_v| + |exit_v|) * feeRate
    (closed, ff, closed + ff)

/-- `float(f"{x:.8f}")` from the Trade-row assembly: rounding to eight
decimal places (ties are immaterial to the claims; Python rounds the
binary float's decimal expansion half-to-even, here half-up on ℚ). -/
def round8 (x : ℚ) : ℚ :=
  ((round (x * 100000000) : ℤ) : ℚ) / 100000000

/-- The quantity-comparison tolerance `1e-12` of `process_positions`. -/
def eps : ℚ := 1 / 1000000000000

/-- A durable per-position Session Record (the dict persisted under
`sess:position:<key>`).  Fields that a reconstruction dict omits are read
back through `asf(s.get(...))`, i.e. as `0`, so they are plain `ℚ` fields
here with `0` in the reconstruction defaults. -/
structure Session where
  symbol : String
  side : String
  base : String
  margin_mode : String
  leverage : ℚ
  start_ts : String
  entry_price_init : ℚ
  last_entry_price : ℚ
  total_entry_value : ℚ
  total_exit_value : ℚ
  last_qty : ℚ
  last_mark_price : ℚ
  last_r_pnl : ℚ
deriving DecidableEq

/-- A finalized Trade row as assembled in the close branch of
`process_positions`. -/
structure Trade where
  symbol : String
  side : String
  start_ts : String
  close_ts : String
  entry_price : ℚ
  close_price : ℚ
  total_entry_value : ℚ
  total_exit_value : ℚ
  closed_pnl : ℚ
  fee_funding : ℚ
  realized : ℚ
  margin_mode : String
  leverage : ℚ
deriving DecidableEq

/-- The event counters returned by `process_positions`. -/
structure Events where
  opens : ℕ
  adds : ℕ
  reduces : ℕ
  closes : ℕ
deriving DecidableEq

/-- One outbound position alert (`send_pos_alert` call), tagged by kind and
identity key; the rendered text is outside the engine. -/
inductive AlertEv where
  | openA : String → AlertEv
  | addA : String → AlertEv
  | reduceA : String → AlertEv
  | closeA : String → AlertEv
deriving DecidableEq

/-- The structured result of one reconciliation cycle. -/
structure CycleResult where
  ok : Bool
  initialSync : Bool
  positions_now : ℕ
  events : Events
  closed_trades : List Trade
deriving DecidableEq

/-- One attempted durable-store command (`Redis.cmd` call), recorded in
program order whether or not the call succeeds. -/
inductive StoreOp where
  | getOp : String → StoreOp
  | setOp : String → StoreOp
  | delOp : String → StoreOp
  | lpushOp : String → Trade → StoreOp
  | ltrimOp : String → StoreOp
deriving DecidableEq

/-- The key list of an association list. -/
def keys (m : List (String × α)) : List String :=
  m.map Prod.fst

/-- Association-list lookup (Python `dict.get`). -/
def alookup (k : String) : List (String × α) → Option α
  | [] => none
  | (k', v) :: rest => if k' = k then some v else alookup k rest

/-- Association-list update (Python `dict.__setitem__`: replace in place,
else append). -/
def aset (k : String) (v : α) : List (String × α) → List (String × α)
  | [] => [(k, v)]
  | (k', v') :: rest => if k' = k then (k, v) :: rest else (k', v') :: aset k v rest

/-- Association-list delete. -/
def adel (k : String) : List (String × α) → List (String × α)
  | [] => []
  | (k', v') :: rest => if k' = k then rest else (k', v') :: adel k rest

/-- The durable store (Upstash Redis) as seen through `Redis.cmd`: typed
contents for the engine's keys, a per-call availability schedule (`[]`
means every call succeeds; otherwise one entry is consumed per call, and a
`false` entry makes that call return `None` exactly as a caught network
error does), and the trace of attempted commands. -/
structure Store where
  initDone : Bool
  openState : List (String × Position)
  sessions : List (String × Session)
  history : List Trade
  avail : List Bool
  trace : List StoreOp
deriving DecidableEq

/-- Consume one availability token. -/
def Store.take (st : Store) : Bool × Store :=
  match st.avail with
  | [] => (true, st)
  | b :: bs => (b, { st with avail := bs })

/-- `open_state()`: `rget_json("state:open_positions", {})`; a failed read
parses as the empty dict. -/
def openStateGet (st : Store) : List (String × Position) × Store :=
  let (ok, st1) := st.take
  ((if ok then st1.openState else []),
   { st1 with trace := st1.trace ++ [StoreOp.getOp "state:open_positions"] })

/-- `init_done()`: `(R.get("state:init_done") or "") == "1"`; a failed read
counts as flag unset. -/
def initDoneGet (st : Store) : Bool × Store :=
  let (ok, st1) := st.take
  ((if ok then st1.initDone else false),
   { st1 with trace := st1.trace ++ [StoreOp.getOp "state:init_done"] })

/-- `mark_init_done()`: a failed write leaves the flag as it was. -/
def markInitDone (st : Store) : Store :=
  let (ok, st1) := st.take
  { st1 with initDone := (if ok then true else st1.initDone),
             trace := st1.trace ++ [StoreOp.setOp "state:init_done"] }

/-- `save_open_state(m)`: a failed write leaves the previous snapshot. -/
def saveOpen (m : List (String × Position)) (st : Store) : Store :=
  let (ok, st1) := st.take
  { st1 with openState := (if ok then m else st1.openState),
             trace := st1.trace ++ [StoreOp.setOp "state:open_positions"] }

/-- `sess_get(k)`: a failed read or an absent key gives `{}` (falsy). -/
def sessGet (k : String) (st : Store) : Option Session × Store :=
  let (ok, st1) := st.take
  ((if ok then alookup k st1.sessions else none),
   { st1 with trace := st1.trace ++ [StoreOp.getOp ("sess:position:" ++ k)] })

/-- `sess_set(k, v)`: a failed write leaves the stored record. -/
def sessSet (k : String) (v : Session) (st : Store) : Store :=
  let (ok, st1) := st.take
  { st1 with sessions := (if ok then aset k v st1.sessions else st1.sessions),
             trace := st1.trace ++ [StoreOp.setOp ("sess:position:" ++ k)] }

/-- `sess_del(k)`: a failed delete leaves the stored record. -/
def sessDel (k : String) (st : Store) : Store :=
  let (ok, st1) := st.take
  { st1 with sessions := (if ok then adel k st1.sessions else st1.sessions),
             trace := st1.trace ++ [StoreOp.delOp ("sess:position:" ++ k)] }

/-- `hist_push(row)`: `rpush_json` = `LPUSH` then `LTRIM ... keep-1`; each
is one store call, each can fail independently (the date partitioning of
the history key plays no role in the claims and is collapsed). -/
def histPush (row : Trade) (st : Store) : Store :=
  let (ok1, st1) := st.take
  let st2 := { st1 with
    history := (if ok1 then row :: st1.history else st1.history),
    trace := st1.trace ++ [StoreOp.lpushOp "history:trades" row] }
  let (ok2, st3) := st2.take
  { st3 with
    history := (if ok2 then st3.history.take 5000 else st3.history),
    trace := st3.trace ++ [StoreOp.ltrimOp "history:trades"] }

/-- `pkey(symbol, side)` from app.py. -/
def pkey (symbol side : String) : String :=
  symbol ++ "|" ++ side

/-- The current snapshot dict: `cur[pkey(p["symbol"], p["side"])] = p`
over the normalized position list, with dict overwrite semantics. -/
def buildCur (ps : List Position) : List (String × Position) :=
  ps.foldl (fun m p => aset (pkey p.symbol p.side) p m) []

/-- The Session Record dict seeded for a fresh open (used identically by
the cold-start branch and the open branch of `process_positions`). -/
def seedSession (nowTs : String) (p : Position) : Session :=
  { symbol := p.symbol, side := p.side, base := p.base,
    margin_mode := p.margin_mode, leverage := p.leverage, start_ts := nowTs,
    entry_price_init := p.entry_price, last_entry_price := p.entry_price,
    total_entry_value := p.value, total_exit_value := 0, last_qty := p.qty,
    last_mark_price := p.mark_price, last_r_pnl := p.r_pnl }

/-- The reconstruction dict used when `sess_get(k)` is empty in the
add/reduce branch (its dict literal omits the `last_*` keys, which later
reads would see as `0`). -/
def defaultSessionCur (nowTs : String) (p : Position) : Session :=
  { symbol := p.symbol, side := p.side, base := p.base,
    margin_mode := p.margin_mode, leverage := p.leverage, start_ts := nowTs,
    entry_price_init := p.entry_price, last_entry_price := 0,
    total_entry_value := p.value, total_exit_value := 0, last_qty := 0,
    last_mark_price := 0, last_r_pnl := 0 }

/-- The reconstruction dict used when `sess_get(k)` is empty in the close
branch, seeded from the previous snapshot's position. -/
def defaultSessionClose (nowTs : String) (o : Position) : Session :=
  { symbol := o.symbol, side := o.side, base := o.base,
    margin_mode := o.margin_mode, leverage := o.leverage, start_ts := nowTs,
    entry_price_init := o.entry_price, last_entry_price := 0,
    total_entry_value := o.value, total_exit_value := 0, last_qty := 0,
    last_mark_price := 0, last_r_pnl := 0 }

/-- The `s.update({...})` refresh applied on every touched key present in
both snapshots: the `last_*` cache fields plus `margin_mode`/`leverage`. -/
def refreshSession (s : Session) (p : Position) (q1 : ℚ) : Session :=
  { s with last_qty := q1, last_mark_price := p.mark_price,
           last_entry_price := p.entry_price, last_r_pnl := p.r_pnl,
           margin_mode := p.margin_mode, leverage := p.leverage }

/-- `closed = (tv_out - tv_in) if s.get("side") == "Long" else (tv_in - tv_out)`. -/
def closedEstimate (side : String) (tv_in tv_out : ℚ) : ℚ :=
  if side = "Long" then tv_out - tv_in else tv_in - tv_out

/-- Loop state of `process_positions`: the store plus the running event
counters and the alerts emitted so far. -/
structure LoopAcc where
  store : Store
  events : Events
  alerts : List AlertEv
deriving DecidableEq

/-- One iteration of the open/add/reduce loop (`for k, p in cur.items()`). -/
def stepCur (sendAlert : Bool) (nowTs : String) (prev : List (String × Position))
    (acc : LoopAcc) (kp : String × Position) : LoopAcc :=
  let k := kp.1
  let p := kp.2
  match alookup k prev with
  | none =>
    let st1 := sessSet k (seedSession nowTs p) acc.store
    { store := st1,
      events := { acc.events with opens := acc.events.opens + 1 },
      alerts := acc.alerts ++ (if sendAlert then [AlertEv.openA k] else []) }
  | some o =>
    let q0 := o.qty
    let q1 := p.qty
    let (sOpt, st1) := sessGet k acc.store
    let s := sOpt.getD (defaultSessionCur nowTs p)
    if q1 > q0 + eps then
      let dv := max (p.value - o.value) ((q1 - q0) * p.entry_price)
      let s1 := { s with total_entry_value := s.total_entry_value + max dv 0 }
      { store := sessSet k (refreshSession s1 p q1) st1,
        events := { acc.events with adds := acc.events.adds + 1 },
        alerts := acc.alerts ++ (if sendAlert then [AlertEv.addA k] else []) }
    else if q1 + eps < q0 then
      let rq := q0 - q1
      let rv := max (o.value - p.value) (rq * p.mark_price)
      let s1 := { s with total_exit_value := s.total_exit_value + max rv 0 }
      { store := sessSet k (refreshSession s1 p q1) st1,
        events := { acc.events with reduces := acc.events.reduces + 1 },
        alerts := acc.alerts ++ (if sendAlert then [AlertEv.reduceA k] else []) }
    else
      { store := sessSet k (refreshSession s p q1) st1,
        events := acc.events,
        alerts := acc.alerts }

/-- The Trade row assembled by the close branch for session `s` (as read
back or reconstructed) and previous-snapshot position `o`: the remaining
notional is added to `total_exit_value` at the implied close price, the
estimate is handed to `fee_calc`, and all three figures are rounded. -/
def closeRow (feeRate : ℚ) (incomeOf : String → List IncomeRec) (nowTs : String)
    (s : Session) (o : Position) : Trade :=
  let remain_qty := o.qty
  let close_p := if o.mark_price = 0 then o.entry_price else o.mark_price
  let s1 := { s with total_exit_value := s.total_exit_value + max (remain_qty * close_p) 0 }
  let tv_in := s1.total_entry_value
  let tv_out := s1.total_exit_value
  let closed := closedEstimate s1.side tv_in tv_out
  let fc := fee_calc feeRate s1.symbol (incomeOf s1.symbol) closed tv_in tv_out
  { symbol := s1.symbol, side := s1.side, start_ts := s1.start_ts,
    close_ts := nowTs, entry_price := s1.entry_price_init,
    close_price := close_p, total_entry_value := tv_in,
    total_exit_value := tv_out, closed_pnl := round8 fc.1,
    fee_funding := round8 fc.2.1, realized := round8 fc.2.2,
    margin_mode := s1.margin_mode, leverage := s1.leverage }

/-- One iteration of the close loop (`for k, o in prev.items()` with the
`k in cur` keys skipped). -/
def stepClose (sendAlert : Bool) (feeRate : ℚ) (incomeOf : String → List IncomeRec)
    (nowTs : String) (cur : List (String × Position))
    (acc : LoopAcc × List Trade) (ko : String × Position) : LoopAcc × List Trade :=
  let k := ko.1
  let o := ko.2
  if (alookup k cur).isSome then acc
  else
    let accL := acc.1
    let rows := acc.2
    let (sOpt, st1) := sessGet k accL.store
    let s := sOpt.getD (defaultSessionClose nowTs o)
    let row := closeRow feeRate incomeOf nowTs s o
    let st2 := histPush row st1
    let st3 := sessDel k st2
    ({ store := st3,
       events := { accL.events with closes := accL.events.closes + 1 },
       alerts := accL.alerts ++ (if sendAlert then [AlertEv.closeA k] else []) },
     rows ++ [row])

/-- `process_positions` from app.py: one full reconciliation cycle over a
normalized current position list, returning the updated store, the cycle
result, and the alerts emitted. -/
def process_positions (sendAlert : Bool) (feeRate : ℚ)
    (incomeOf : String → List IncomeRec) (nowTs : String)
    (positions : List Position) (st0 : Store) :
    Store × CycleResult × List AlertEv :=
  let cur := buildCur positions
  let (prev, st1) := openStateGet st0
  let (idone, st2) := initDoneGet st1
  if idone = false then
    let st3 := cur.foldl (fun st kp => sessSet kp.1 (seedSession nowTs kp.2) st) st2
    let st4 := saveOpen cur st3
    let st5 := markInitDone st4
    (st5,
     { ok := true, initialSync := true, positions_now := cur.length,
       events := ⟨0, 0, 0, 0⟩, closed_trades := [] },
     [])
  else
    let acc0 : LoopAcc := { store := st2, events := ⟨0, 0, 0, 0⟩, alerts := [] }
    let acc1 := cur.foldl (stepCur sendAlert nowTs prev) acc0
    let accRows := prev.foldl (stepClose sendAlert feeRate incomeOf nowTs cur) (acc1, [])
    let st3 := saveOpen cur accRows.1.store
    (st3,
     { ok := true, initialSync := false, positions_now := cur.length,
       events := accRows.1.events, closed_trades := accRows.2 },
     accRows.1.alerts)

/-! Concrete inputs used by the witnesses and counterexamples below. -/

/-- A concrete normalized BTC long position. -/
def pBTC : Position :=
  { symbol := "BTCUSDT", base := "BTC", side := "Long", qty := 1,
    entry_price := 100, mark_price := 120, u_pnl := 20, r_pnl := 0,
    leverage := 10, margin_mode := "Isolated", value := 100, margin := 10 }

/-- Its identity key. -/
def kBTC : String := pkey "BTCUSDT" "Long"

/-- A concrete ETH long position. -/
def pETH : Position :=
  { symbol := "ETHUSDT", base := "ETH", side := "Long", qty := 2,
    entry_price := 50, mark_price := 55, u_pnl := 10, r_pnl := 0,
    leverage := 5, margin_mode := "Cross", value := 100, margin := 20 }

/-- A concrete SOL short position. -/
def pSOL : Position :=
  { symbol := "SOLUSDT", base := "SOL", side := "Short", qty := 10,
    entry_price := 20, mark_price := 19, u_pnl := 10, r_pnl := 0,
    leverage := 4, margin_mode := "Isolated", value := 200, margin := 50 }

/-- A session for `kBTC` with accumulated entry 1000 and exit 880, so that
the close branch finishes with `total_exit_value = 1000`. -/
def sessBTC : Session :=
  { symbol := "BTCUSDT", side := "Long", base := "BTC",
    margin_mode := "Isolated", leverage := 10, start_ts := "t0",
    entry_price_init := 100, last_entry_price := 100,
    total_entry_value := 1000, total_exit_value := 880, last_qty := 1,
    last_mark_price := 120, last_r_pnl := 0 }

/-- A settlement record with a sub-rounding-quantum PnL amount. -/
def recTinyPnl : IncomeRec :=
  { incomeType := some "trade", income := some (6 / 1000000000) }

/-- A settlement record with a sub-rounding-quantum commission amount. -/
def recTinyFee : IncomeRec :=
  { incomeType := some "commission", income := some (-(2 / 1000000000)) }

/-- A settlement source answering every query with the two tiny records. -/
def incomeTiny : String → List IncomeRec :=
  fun _ => [recTinyPnl, recTinyFee]

/-- A settlement record for ETH with a realized-PnL amount of 7. -/
def recEth : IncomeRec :=
  { symbol := some "ETHUSDT", incomeType := some "REALIZED_PNL", income := some 7 }

/-- A settlement record whose symbol resolves to the empty string. -/
def recNoSym : IncomeRec :=
  { bizType := some "FUNDING_FEE", amount := some 5 }

/-- A store holding only the BTC position and its session, always
available. -/
def stBTC : Store :=
  { initDone := true, openState := [(kBTC, pBTC)], sessions := [(kBTC, sessBTC)],
    history := [], avail := [], trace := [] }

/-- An empty, never-synced, always-available store. -/
def stEmpty : Store :=
  { initDone := false, openState := [], sessions := [], history := [],
    avail := [], trace := [] }

/-- A session for `kBTC` whose cached leverage (5) disagrees with the
current position's leverage (10). -/
def sessLev5 : Session :=
  { sessBTC with leverage := 5 }

/-- The BTC store with the stale-leverage session. -/
def stLev5 : Store :=
  { stBTC with sessions := [(kBTC, sessLev5)] }

/-- The BTC position with its quantity perturbed by half the epsilon
tolerance. -/
def pBTChalfEps : Position :=
  { pBTC with qty := 1 + 1 / 2000000000000 }

/-- A store that is up for the two initial reads and down for the two
writes of a one-open-position cycle. -/
def stWriteFail : Store :=
  { initDone := true, openState := [], sessions := [], history := [],
    avail := [true, true, false, false], trace := [] }

/-- A store that is up for every call of a one-close cycle except the
`LPUSH` appending the close Trade. -/
def stPushFail : Store :=
  { initDone := true, openState := [(kBTC, pBTC)], sessions := [(kBTC, sessBTC)],
    history := [], avail := [true, true, true, false, true, true, true],
    trace := [] }

/-- The Trade row the fallback path produces for `stBTC`/`stPushFail`
with no settlement records and taker fee rate `0.0005`. -/
def rowFall : Trade :=
  { symbol := "BTCUSDT", side := "Long", start_ts := "t0", close_ts := "t1",
    entry_price := 100, close_price := 120, total_entry_value := 1000,
    total_exit_value := 1000, closed_pnl := 0, fee_funding := -1,
    realized := -1, margin_mode := "Isolated", leverage := 10 }

/-- The Trade row produced for `stBTC` when the settlement source returns
`recTinyPnl` and `recTinyFee`: each of the three figures is rounded
separately, and the stored identity breaks. -/
def rowTiny : Trade :=
  { symbol := "BTCUSDT", side := "Long", start_ts := "t0", close_ts := "t1",
    entry_price := 100, close_price := 120, total_entry_value := 1000,
    total_exit_value := 1000, closed_pnl := 1 / 100000000, fee_funding := 0,
    realized := 0, margin_mode := "Isolated", leverage := 10 }

/-! ### Association-list and store lemmas -/

example : strContains "BTCUSDT" "BTC" = true := by decide
example : strContains "ETHUSDT" "BTCUSDT" = false := by decide
example : normSym "BTC-USDT" = "BTCUSDT" := by decide

@[simp]
theorem alookup_nil (k : String) : alookup (α := α) k [] = none :=
  rfl

@[simp]
theorem alookup_cons (k k' : String) (v : α) (m : List (String × α)) :
    alookup k ((k', v) :: m) = if k' = k then some v else alookup k m :=
  rfl

theorem alookup_aset_self (k : String) (v : α) (m : List (String × α)) :
    alookup k (aset k v m) = some v := by
  induction m with
  | nil => simp [aset]
  | cons head tail ih =>
    obtain ⟨k', v'⟩ := head
    by_cases h : k' = k <;> simp [aset, h, ih]

theorem alookup_aset_ne (k k' : String) (v : α) (m : List (String × α))
    (h : k' ≠ k) : alookup k (aset k' v m) = alookup k m := by
  induction m with
  | nil => simp [aset, h]
  | cons head tail ih =>
    obtain ⟨k'', v''⟩ := head
    by_cases h2 : k'' = k' <;> by_cases h3 : k'' = k <;>
      simp_all [aset]

theorem aset_of_not_mem_keys (k : String) (v : α) (m : List (String × α))
    (h : k ∉ keys m) : aset k v m = m ++ [(k, v)] := by
  induction m with
  | nil => simp [aset]
  | cons head tail ih =>
    obtain ⟨k', v'⟩ := head
    simp only [keys, List.map_cons, List.mem_cons] at h
    push_neg at h
    simp [aset, Ne.symm h.1, ih (by simpa [keys] using h.2)]

theorem keys_aset (k : String) (v : α) (m : List (String × α)) :
    keys (aset k v m) = if k ∈ keys m then keys m else keys m ++ [k] := by
  induction m with
  | nil => simp [aset, keys]
  | cons head tail ih =>
    obtain ⟨k', v'⟩ := head
    by_cases h : k' = k
    · subst h
      simp [aset, keys]
    · have hkk' : ¬ k = k' := fun hh => h hh.symm
      simp only [aset, if_neg h, keys, List.map_cons] at ih ⊢
      rw [ih]
      by_cases h2 : k ∈ List.map Prod.fst tail <;>
        simp [List.mem_cons, h2, hkk']

theorem nodup_keys_aset (k : String) (v : α) (m : List (String × α))
    (h : (keys m).Nodup) : (keys (aset k v m)).Nodup := by
  rw [keys_aset]
  split
  · exact h
  · rename_i hk
    rw [List.nodup_append]
    exact ⟨h, List.nodup_singleton _, by
      intro a ha hb
      simp only [List.mem_singleton] at hb
      subst hb
      exact hk ha⟩

theorem buildCur_keys_nodup (ps : List Position) :
    (keys (buildCur ps)).Nodup := by
  have main : ∀ (l : List Position) (m : List (String × Position)),
      (keys m).Nodup →
      (keys (l.foldl (fun m p => aset (pkey p.symbol p.side) p m) m)).Nodup := by
    intro l
    induction l with
    | nil => intro m hm; simpa using hm
    | cons p tl ih =>
      intro m hm
      exact ih _ (nodup_keys_aset _ _ _ hm)
  exact main ps [] (by simp [keys])

theorem foldl_aset_disjoint {β γ : Type} (f : String × β → γ) :
    ∀ (l : List (String × β)) (m : List (String × γ)),
      (l.map Prod.fst).Nodup → (∀ kp ∈ l, kp.1 ∉ keys m) →
      l.foldl (fun ss kp => aset kp.1 (f kp) ss) m =
        m ++ l.map (fun kp => (kp.1, f kp)) := by
  intro l
  induction l with
  | nil => intro m _ _; simp
  | cons kp tl ih =>
    intro m hnd hdis
    obtain ⟨k, b⟩ := kp
    simp only [List.map_cons, List.nodup_cons] at hnd
    have hknm : k ∉ keys m := by
      have := hdis (k, b) (by simp)
      simpa using this
    simp only [List.foldl_cons]
    rw [aset_of_not_mem_keys _ _ _ hknm]
    rw [ih (m ++ [(k, f (k, b))]) hnd.2 ?_]
    · simp
    · intro kp' hkp'
      have h1 : kp'.1 ∉ keys m := hdis kp' (by simp [hkp'])
      have h2 : kp'.1 ≠ k := by
        intro hEq
        exact hnd.1 (hEq ▸ (List.mem_map.mpr ⟨kp', hkp', rfl⟩))
      simp [keys, h1, h2]
      simpa [keys] using h1

theorem take_nil (st : Store) (h : st.avail = []) : st.take = (true, st) := by
  simp [Store.take, h]

theorem openStateGet_nil (st : Store) (h : st.avail = []) :
    openStateGet st =
      (st.openState,
       { st with trace := st.trace ++ [StoreOp.getOp "state:open_positions"] }) := by
  simp [openStateGet, Store.take, h]

theorem initDoneGet_nil (st : Store) (h : st.avail = []) :
    initDoneGet st =
      (st.initDone,
       { st with trace := st.trace ++ [StoreOp.getOp "state:init_done"] }) := by
  simp [initDoneGet, Store.take, h]

theorem markInitDone_nil (st : Store) (h : st.avail = []) :
    markInitDone st =
      { st with initDone := true,
                trace := st.trace ++ [StoreOp.setOp "state:init_done"] } := by
  simp [markInitDone, Store.take, h]

theorem saveOpen_nil (m : List (String × Position)) (st : Store) (h : st.avail = []) :
    saveOpen m st =
      { st with openState := m,
                trace := st.trace ++ [StoreOp.setOp "state:open_positions"] } := by
  simp [saveOpen, Store.take, h]

theorem sessGet_nil (k : String) (st : Store) (h : st.avail = []) :
    sessGet k st =
      (alookup k st.sessions,
       { st with trace := st.trace ++ [StoreOp.getOp ("sess:position:" ++ k)] }) := by
  simp [sessGet, Store.take, h]

theorem sessSet_nil (k : String) (v : Session) (st : Store) (h : st.avail = []) :
    sessSet k v st =
      { st with sessions := aset k v st.sessions,
                trace := st.trace ++ [StoreOp.setOp ("sess:position:" ++ k)] } := by
  simp [sessSet, Store.take, h]

theorem sessDel_nil (k : String) (st : Store) (h : st.avail = []) :
    sessDel k st =
      { st with sessions := adel k st.sessions,
                trace := st.trace ++ [StoreOp.delOp ("sess:position:" ++ k)] } := by
  simp [sessDel, Store.take, h]

theorem histPush_nil (row : Trade) (st : Store) (h : st.avail = []) :
    histPush row st =
      { st with history := (row :: st.history).take 5000,
                trace := st.trace ++ [StoreOp.lpushOp "history:trades" row,
                                      StoreOp.ltrimOp "history:trades"] } := by
  simp [histPush, Store.take, h]

theorem strContains_empty_needle (hay : String) : strContains hay "" = true := by
  unfold strContains
  cases hay.data with
  | nil => rfl
  | cons b bs => simp [containsCL, startsWithCL]

theorem keepRec_of_empty_sym (reqNorm : String) (r : IncomeRec)
    (h : recSymOf r = "") : keepRec reqNorm r = true := by
  simp [keepRec, h]

theorem coldFold (nowTs : String) :
    ∀ (l : List (String × Position)) (st : Store), st.avail = [] →
      (l.foldl (fun st kp => sessSet kp.1 (seedSession nowTs kp.2) st) st).initDone
          = st.initDone ∧
      (l.foldl (fun st kp => sessSet kp.1 (seedSession nowTs kp.2) st) st).openState
          = st.openState ∧
      (l.foldl (fun st kp => sessSet kp.1 (seedSession nowTs kp.2) st) st).avail = [] ∧
      (l.foldl (fun st kp => sessSet kp.1 (seedSession nowTs kp.2) st) st).history
          = st.history ∧
      (l.foldl (fun st kp => sessSet kp.1 (seedSession nowTs kp.2) st) st).sessions
          = l.foldl (fun ss kp => aset kp.1 (seedSession nowTs kp.2) ss) st.sessions := by
  intro l
  induction l with
  | nil => intro st h; exact ⟨rfl, rfl, h, rfl, rfl⟩
  | cons kp tl ih =>
    intro st h
    simp only [List.foldl_cons]
    rw [sessSet_nil kp.1 (seedSession nowTs kp.2) st h]
    exact ih _ h

theorem coldFold_initDone (nowTs : String) (l : List (String × Position))
    (st : Store) (h : st.avail = []) :
    (l.foldl (fun st kp => sessSet kp.1 (seedSession nowTs kp.2) st) st).initDone
      = st.initDone :=
  (coldFold nowTs l st h).1

theorem coldFold_openState (nowTs : String) (l : List (String × Position))
    (st : Store) (h : st.avail = []) :
    (l.foldl (fun st kp => sessSet kp.1 (seedSession nowTs kp.2) st) st).openState
      = st.openState :=
  (coldFold nowTs l st h).2.1

theorem coldFold_avail (nowTs : String) (l : List (String × Position))
    (st : Store) (h : st.avail = []) :
    (l.foldl (fun st kp => sessSet kp.1 (seedSession nowTs kp.2) st) st).avail = [] :=
  (coldFold nowTs l st h).2.2.1

theorem coldFold_history (nowTs : String) (l : List (String × Position))
    (st : Store) (h : st.avail = []) :
    (l.foldl (fun st kp => sessSet kp.1 (seedSession nowTs kp.2) st) st).history
      = st.history :=
  (coldFold nowTs l st h).2.2.2.1

theorem coldFold_sessions (nowTs : String) (l : List (String × Position))
    (st : Store) (h : st.avail = []) :
    (l.foldl (fun st kp => sessSet kp.1 (seedSession nowTs kp.2) st) st).sessions
      = l.foldl (fun ss kp => aset kp.1 (seedSession nowTs kp.2) ss) st.sessions :=
  (coldFold nowTs l st h).2.2.2.2

theorem saveOpen_sessions (m : List (String × Position)) (st : Store) :
    (saveOpen m st).sessions = st.sessions := by
  cases h : st.avail <;> simp [saveOpen, Store.take, h]

theorem alookup_foldl_preserved (k : String) :
    ∀ (l : List (String × Position)) (ss : List (String × Session))
      (g : List (String × Session) → (String × Position) → Session),
      (∀ kp ∈ l, kp.1 ≠ k) →
      alookup k (l.foldl (fun ss kp => aset kp.1 (g ss kp) ss) ss)
        = alookup k ss := by
  intro l
  induction l with
  | nil => intro ss g _; rfl
  | cons kp tl ih =>
    intro ss g h
    simp only [List.foldl_cons]
    rw [ih _ _ (fun kp' h' => h kp' (by simp [h']))]
    exact alookup_aset_ne _ _ _ _ (h kp (by simp))

theorem markInitDone_sessions (st : Store) :
    (markInitDone st).sessions = st.sessions := by
  cases h : st.avail <;> simp [markInitDone, Store.take, h]

theorem foldSeed_lookup (nowTs : String) :
    ∀ (l : List (String × Position)) (ss : List (String × Session)),
      (l.map Prod.fst).Nodup → ∀ kp ∈ l,
      alookup kp.1 (l.foldl (fun ss kp => aset kp.1 (seedSession nowTs kp.2) ss) ss)
        = some (seedSession nowTs kp.2) := by
  intro l
  induction l with
  | nil => intro ss _ kp h; exact absurd h (List.not_mem_nil kp)
  | cons hd tl ih =>
    intro ss hnd kp hmem
    simp only [List.map_cons, List.nodup_cons] at hnd
    simp only [List.foldl_cons]
    rcases List.mem_cons.mp hmem with heq | hkp
    · subst heq
      rw [alookup_foldl_preserved kp.1 tl _ _
        (fun kp' h' hEq => hnd.1 (hEq ▸ List.mem_map.mpr ⟨kp', h', rfl⟩))]
      rw [alookup_aset_self]
    · exact ih _ hnd.2 kp hkp

/-- **C2**: with the initial-sync flag unset, a cycle over the current
positions creates one seeded Session Record per current key (entry price,
current notional as `total_entry_value`, zero `total_exit_value`),
persists the current snapshot as previous, sets the flag, emits no alerts,
and returns zero open/add/reduce/close counts. -/
theorem C2_cold_start_suppression (sendAlert : Bool) (feeRate : ℚ)
    (incomeOf : String → List IncomeRec) (nowTs : String)
    (positions : List Position) (st : Store)
    (hA : st.avail = []) (hI : st.initDone = false) :
    (process_positions sendAlert feeRate incomeOf nowTs positions st).2.1 =
      { ok := true, initialSync := true,
        positions_now := (buildCur positions).length,
        events := ⟨0, 0, 0, 0⟩, closed_trades := [] } ∧
    (process_positions sendAlert feeRate incomeOf nowTs positions st).2.2 = [] ∧
    (process_positions sendAlert feeRate incomeOf nowTs positions st).1.initDone
        = true ∧
    (process_positions sendAlert feeRate incomeOf nowTs positions st).1.openState
        = buildCur positions ∧
    (∀ kp ∈ buildCur positions,
      alookup kp.1 (process_positions sendAlert feeRate incomeOf nowTs positions
          st).1.sessions
        = some (seedSession nowTs kp.2)) ∧
    (st.sessions = [] →
      (process_positions sendAlert feeRate incomeOf nowTs positions st).1.sessions
        = (buildCur positions).map (fun kp => (kp.1, seedSession nowTs kp.2))) := by
  have hnd : ((buildCur positions).map Prod.fst).Nodup := buildCur_keys_nodup positions
  refine ⟨?_, ?_, ?_, ?_, ?_, ?_⟩
  · simp [process_positions, openStateGet_nil, initDoneGet_nil, hA, hI]
  · simp [process_positions, openStateGet_nil, initDoneGet_nil, hA, hI]
  · simp [process_positions, openStateGet_nil, initDoneGet_nil, hA, hI,
      markInitDone_nil, saveOpen_nil, coldFold_avail]
  · simp [process_positions, openStateGet_nil, initDoneGet_nil, hA, hI,
      markInitDone_nil, saveOpen_nil, coldFold_avail, coldFold_openState]
  · intro kp hkp
    simp [process_positions, openStateGet_nil, initDoneGet_nil, hA, hI,
      markInitDone_sessions, saveOpen_sessions, coldFold_sessions, coldFold_avail]
    exact foldSeed_lookup nowTs (buildCur positions) st.sessions hnd kp hkp
  · intro hS
    simp [process_positions, openStateGet_nil, initDoneGet_nil, hA, hI,
      markInitDone_sessions, saveOpen_sessions, coldFold_sessions, coldFold_avail]
    rw [hS, foldl_aset_disjoint (fun kp => seedSession nowTs kp.2)
      (buildCur positions) [] hnd (by intro kp _; simp [keys])]
    simp

/-- Witness for C2 at a concrete cold-start cycle with three positions. -/
theorem C2_cold_start_suppression_witness :
    stEmpty.avail = [] ∧ stEmpty.initDone = false ∧ stEmpty.sessions = [] ∧
    (process_positions true 0 (fun _ => []) "t0" [pBTC, pETH, pSOL] stEmpty).2.1 =
      { ok := true, initialSync := true, positions_now := 3,
        events := ⟨0, 0, 0, 0⟩, closed_trades := [] } ∧
    (process_positions true 0 (fun _ => []) "t0" [pBTC, pETH, pSOL] stEmpty).2.2 = [] ∧
    (process_positions true 0 (fun _ => []) "t0" [pBTC, pETH, pSOL] stEmpty).1.initDone
        = true ∧
    (process_positions true 0 (fun _ => []) "t0" [pBTC, pETH, pSOL] stEmpty).1.sessions
        = [(pkey "BTCUSDT" "Long", seedSession "t0" pBTC),
           (pkey "ETHUSDT" "Long", seedSession "t0" pETH),
           (pkey "SOLUSDT" "Short", seedSession "t0" pSOL)] := by
  have h := C2_cold_start_suppression true 0 (fun _ => []) "t0" [pBTC, pETH, pSOL]
    stEmpty rfl rfl
  refine ⟨rfl, rfl, rfl, ?_, h.2.1, h.2.2.1, ?_⟩
  · rw [h.1, show (buildCur [pBTC, pETH, pSOL]).length = 3 by decide]
  · rw [h.2.2.2.2.2 rfl]
    decide

/-- **C4**: when the settlement source returns zero records, `fee_calc`
uses the fallback estimator: `fee_funding = -(|entry|+|exit|) * feeRate`,
`closed_pnl` is the caller-supplied estimate, and
`realized = closed_pnl + fee_funding`. -/
theorem C4_fallback_estimator (feeRate : ℚ) (symbol : String)
    (closed entry_v exit_v : ℚ) :
    income_split symbol [] = none ∧
    fee_calc feeRate symbol [] closed entry_v exit_v =
      (closed, -(|entry_v| + |exit_v|) * feeRate,
       closed + -(|entry_v| + |exit_v|) * feeRate) := by
  exact ⟨rfl, rfl⟩

/-- **C5**: a settlement record whose normalized symbol is neither a
superstring nor a substring of the requested symbol's normalized form
contributes to none of `closed_pnl`, `fee_funding`, `realized`. -/
theorem C5_foreign_symbol_filtered (sym : String) (r : IncomeRec)
    (rs : List IncomeRec)
    (h1 : strContains (normSym (recSymOf r)) (normSym sym) = false)
    (h2 : strContains (normSym sym) (normSym (recSymOf r)) = false) :
    splitSums (normSym sym) (r :: rs) = splitSums (normSym sym) rs ∧
    income_split sym (r :: rs) = some (splitSums (normSym sym) rs) := by
  have hrec : recSymOf r ≠ "" := by
    intro h
    rw [h] at h2
    rw [show normSym "" = "" from rfl, strContains_empty_needle] at h2
    exact Bool.true_eq_false.mp h2
  have hrecN : normSym (recSymOf r) ≠ "" := by
    intro h
    rw [h, strContains_empty_needle] at h2
    exact Bool.true_eq_false.mp h2
  have hreqN : normSym sym ≠ "" := by
    intro h
    rw [h, strContains_empty_needle] at h1
    exact Bool.true_eq_false.mp h1
  have hkeep : keepRec (normSym sym) r = false := by
    simp [keepRec, hrec, hrecN, hreqN, h1, h2]
  constructor
  · simp [splitSums, hkeep]
  · simp [income_split, splitSums, hkeep]

/-- Witness for C5: an `ETHUSDT` settlement record contributes nothing to
a reconciliation requested for `BTCUSDT`. -/
theorem C5_foreign_symbol_filtered_witness :
    strContains (normSym (recSymOf recEth)) (normSym "BTCUSDT") = false ∧
    strContains (normSym "BTCUSDT") (normSym (recSymOf recEth)) = false ∧
    income_split "BTCUSDT" [recEth] = some (0, 0, 0) := by
  refine ⟨by decide, by decide, ?_⟩
  have h := C5_foreign_symbol_filtered "BTCUSDT" recEth [] (by decide) (by decide)
  rw [h.2]
  rfl

/-- **C6**: the closed-PnL estimate handed to the Settlement Reconciler
for a vanished position is `total_exit_value - total_entry_value` for a
Long session and the negation for a Short one; at
`entry 1000 / exit 1100` this is `+100` resp. `-100`.  The last conjunct
ties the formula to the close branch: on the fallback path the stored
`closed_pnl` is exactly the rounded estimate of the row's stored side and
totals. -/
theorem C6_closed_estimate_sign (tv_in tv_out : ℚ) :
    closedEstimate "Long" tv_in tv_out = tv_out - tv_in ∧
    closedEstimate "Short" tv_in tv_out = tv_in - tv_out ∧
    closedEstimate "Long" 1000 1100 = 100 ∧
    closedEstimate "Short" 1000 1100 = -100 ∧
    ∀ (feeRate : ℚ) (nowTs : String) (s : Session) (o : Position),
      (closeRow feeRate (fun _ => []) nowTs s o).closed_pnl
        = round8 (closedEstimate (closeRow feeRate (fun _ => []) nowTs s o).side
            (closeRow feeRate (fun _ => []) nowTs s o).total_entry_value
            (closeRow feeRate (fun _ => []) nowTs s o).total_exit_value) := by
  refine ⟨rfl, ?_, ?_, ?_, ?_⟩
  · simp [closedEstimate]
  · norm_num [closedEstimate]
  · simp [closedEstimate]
    norm_num
  · intro feeRate nowTs s o
    rfl

/-- **C10**: a settlement record whose symbol field resolves to the empty
string is never excluded by the symbol filter: its amount is accumulated
into `fee_funding` when its type token carries a fee/funding keyword and
into `closed_pnl` otherwise, whatever symbol the reconciliation was
requested for. -/
theorem C10_empty_symbol_never_filtered (sym : String) (r : IncomeRec)
    (rs : List IncomeRec) (h : recSymOf r = "") :
    income_split sym (r :: rs) =
      some (if isFeeType (typOf r)
        then ((splitSums (normSym sym) rs).1,
              (splitSums (normSym sym) rs).2.1 + incOf r,
              (splitSums (normSym sym) rs).2.2 + incOf r)
        else ((splitSums (normSym sym) rs).1 + incOf r,
              (splitSums (normSym sym) rs).2.1,
              (splitSums (normSym sym) rs).2.2 + incOf r)) := by
  have hkeep : keepRec (normSym sym) r = true := keepRec_of_empty_sym _ r h
  by_cases hfee : isFeeType (typOf r) = true
  · simp [income_split, splitSums, hkeep, hfee]
  · simp only [Bool.not_eq_true] at hfee
    simp [income_split, splitSums, hkeep, hfee]

/-- Witness for C10: a symbol-less `FUNDING_FEE` record for amount 5 is
accumulated into the fee/funding bucket of a `BTCUSDT` reconciliation. -/
theorem C10_empty_symbol_never_filtered_witness :
    recSymOf recNoSym = "" ∧
    income_split "BTCUSDT" [recNoSym] = some (0, 5, 5) := by
  refine ⟨by decide, ?_⟩
  have h := C10_empty_symbol_never_filtered "BTCUSDT" recNoSym [] (by decide)
  rw [h]
  have hfee : isFeeType (typOf recNoSym) = true := by decide
  rw [if_pos hfee]
  have hinc : incOf recNoSym = 5 := by decide
  rw [hinc]
  norm_num [splitSums]

/-- **C9**: `norm_pos` returns `none` exactly when no symbol resolves or
the resolved quantity (after the available-amount fallback) is `≤ 0`; it
is a total function (the embedding of "never raises"), and any returned
Position has a non-empty symbol and strictly positive quantity. -/
theorem C9_norm_pos_rejection (it : RawPos) :
    (norm_pos it = none ↔ resolvedSymbol it = "" ∨ resolvedQty it ≤ 0) ∧
    (norm_pos it = none ∨
      ∃ p, norm_pos it = some p ∧ p.symbol ≠ "" ∧ 0 < p.qty) := by
  by_cases h1 : resolvedSymbol it = ""
  · exact ⟨by simp [norm_pos, h1], Or.inl (by simp [norm_pos, h1])⟩
  · by_cases h2 : resolvedQty it ≤ 0
    · exact ⟨by simp [norm_pos, h1, h2], Or.inl (by simp [norm_pos, h1, h2])⟩
    · constructor
      · simp [norm_pos, h1, h2]
      · right
        simp only [norm_pos, if_neg h1, if_neg h2]
        exact ⟨_, rfl, h1, not_le.mp h2⟩

/-- **C7 (amended)**: `process_positions` reports `ok = true` on every
cycle, whether or not any durable-store write succeeded: `Redis.cmd`
swallows write failures (logs and returns `None`), and no code path
produces a cycle-level failure status. -/
theorem C7_cycle_always_reports_ok (sendAlert : Bool) (feeRate : ℚ)
    (incomeOf : String → List IncomeRec) (nowTs : String)
    (positions : List Position) (st : Store) :
    (process_positions sendAlert feeRate incomeOf nowTs positions st).2.1.ok = true := by
  unfold process_positions
  split
  split
  split <;> rfl

/-- Counterexample to **C7** as stated: a cycle whose session write and
snapshot write both fail still returns `ok = true`; nothing was persisted
(the open position never reaches the snapshot or session store). -/
theorem C7_counterexample :
    (process_positions true 0 (fun _ => []) "t0" [pBTC] stWriteFail).2.1.ok = true ∧
    (process_positions true 0 (fun _ => []) "t0" [pBTC] stWriteFail).2.1.events
      = ⟨1, 0, 0, 0⟩ ∧
    (process_positions true 0 (fun _ => []) "t0" [pBTC] stWriteFail).1.openState = [] ∧
    (process_positions true 0 (fun _ => []) "t0" [pBTC] stWriteFail).1.sessions = [] ∧
    buildCur [pBTC] = [(pkey "BTCUSDT" "Long", pBTC)] := by
  decide

theorem fee_calc_sum (feeRate : ℚ) (symbol : String) (recs : List IncomeRec)
    (closed entry_v exit_v : ℚ) :
    (fee_calc feeRate symbol recs closed entry_v exit_v).2.2 =
      (fee_calc feeRate symbol recs closed entry_v exit_v).1 +
        (fee_calc feeRate symbol recs closed entry_v exit_v).2.1 := by
  unfold fee_calc
  rcases h : income_split symbol recs with _ | ⟨c, ff, real⟩ <;> simp [h]

theorem abs_round8_add_sub_le (c ff : ℚ) :
    |round8 (c + ff) - (round8 c + round8 ff)| ≤ 1 / 100000000 := by
  set n : ℤ :=
    round ((c + ff) * 100000000) - round (c * 100000000) - round (ff * 100000000)
    with hn
  have hcast : round8 (c + ff) - (round8 c + round8 ff) = (n : ℚ) / 100000000 := by
    simp only [round8, hn]
    push_cast
    ring
  set A : ℚ := ((round ((c + ff) * 100000000) : ℤ) : ℚ) - (c + ff) * 100000000 with hA
  set B : ℚ := ((round (c * 100000000) : ℤ) : ℚ) - c * 100000000 with hB
  set C : ℚ := ((round (ff * 100000000) : ℤ) : ℚ) - ff * 100000000 with hC
  have hq : |(n : ℚ)| ≤ 3 / 2 := by
    have e : (n : ℚ) = A - B - C := by
      rw [hn, hA, hB, hC]
      push_cast
      ring
    have a1 : |A| ≤ 1 / 2 := by rw [hA, abs_sub_comm]; exact abs_sub_round _
    have a2 : |B| ≤ 1 / 2 := by rw [hB, abs_sub_comm]; exact abs_sub_round _
    have a3 : |C| ≤ 1 / 2 := by rw [hC, abs_sub_comm]; exact abs_sub_round _
    have s1 : |A - B - C| ≤ |A - B| + |C| := abs_sub _ _
    have s2 : |A - B| ≤ |A| + |B| := abs_sub _ _
    rw [e]
    linarith
  have hZ : |n| ≤ 1 := by
    by_contra hh
    push_neg at hh
    have h2 : (2 : ℤ) ≤ |n| := hh
    have h3 : ((2 : ℤ) : ℚ) ≤ ((|n| : ℤ) : ℚ) := by exact_mod_cast h2
    rw [Int.cast_abs] at h3
    push_cast at h3
    linarith
  have habs : |(n : ℚ)| ≤ 1 := by
    rw [← Int.cast_abs]
    exact_mod_cast hZ
  rw [hcast, abs_div, show |(100000000 : ℚ)| = 100000000 by norm_num]
  linarith

theorem closeRow_conservation (feeRate : ℚ) (incomeOf : String → List IncomeRec)
    (nowTs : String) (s : Session) (o : Position) :
    ∃ c ff : ℚ,
      (closeRow feeRate incomeOf nowTs s o).closed_pnl = round8 c ∧
      (closeRow feeRate incomeOf nowTs s o).fee_funding = round8 ff ∧
      (closeRow feeRate incomeOf nowTs s o).realized = round8 (c + ff) := by
  simp only [closeRow]
  exact ⟨_, _, rfl, rfl, by rw [fee_calc_sum]⟩

theorem foldClose_rows_good (sendAlert : Bool) (feeRate : ℚ)
    (incomeOf : String → List IncomeRec) (nowTs : String)
    (cur : List (String × Position)) (P : Trade → Prop)
    (hP : ∀ s o, P (closeRow feeRate incomeOf nowTs s o)) :
    ∀ (prev : List (String × Position)) (acc : LoopAcc × List Trade),
      (∀ row ∈ acc.2, P row) →
      ∀ row ∈ (prev.foldl (stepClose sendAlert feeRate incomeOf nowTs cur) acc).2,
        P row := by
  intro prev
  induction prev with
  | nil => intro acc h row hrow; exact h row hrow
  | cons ko tl ih =>
    intro acc h
    simp only [List.foldl_cons]
    apply ih
    intro row hrow
    by_cases hk : (alookup ko.1 cur).isSome
    · simp only [stepClose, if_pos hk] at hrow
      exact h row hrow
    · simp only [stepClose, if_neg hk, List.mem_append, List.mem_singleton] at hrow
      rcases hrow with hrow | hrow
      · exact h row hrow
      · subst hrow
        exact hP _ _

theorem process_positions_closed_trades_shape (sendAlert : Bool) (feeRate : ℚ)
    (incomeOf : String → List IncomeRec) (nowTs : String)
    (positions : List Position) (st : Store) :
    (process_positions sendAlert feeRate incomeOf nowTs positions st).2.1.closed_trades
        = [] ∨
    ∃ (prev : List (String × Position)) (acc1 : LoopAcc),
      (process_positions sendAlert feeRate incomeOf nowTs positions st).2.1.closed_trades
        = (List.foldl (stepClose sendAlert feeRate incomeOf nowTs (buildCur positions))
            (acc1, []) prev).2 := by
  unfold process_positions
  rcases hOS : openStateGet st with ⟨prev0, st1⟩
  rcases hID : initDoneGet st1 with ⟨idone, st2⟩
  by_cases hid : idone = false
  · left
    simp [hID, hid]
  · right
    refine ⟨prev0, List.foldl (stepCur sendAlert nowTs prev0)
      { store := st2, events := ⟨0, 0, 0, 0⟩, alerts := [] } (buildCur positions), ?_⟩
    simp [hID, hid]

/-- **C1 (amended)**: every finalized Trade row carries figures that were
each rounded from values satisfying `realized = closed_pnl + fee_funding`
before rounding (the code computes `real = c + ff` and then rounds the
three separately), so the stored figures satisfy the conservation law up
to one unit in the eighth decimal place; exact post-rounding equality can
fail. -/
theorem C1_conservation_pre_rounding (sendAlert : Bool) (feeRate : ℚ)
    (incomeOf : String → List IncomeRec) (nowTs : String)
    (positions : List Position) (st : Store) :
    ∀ row ∈ (process_positions sendAlert feeRate incomeOf nowTs positions
        st).2.1.closed_trades,
      (∃ c ff : ℚ, row.closed_pnl = round8 c ∧ row.fee_funding = round8 ff ∧
        row.realized = round8 (c + ff)) ∧
      |row.realized - (row.closed_pnl + row.fee_funding)| ≤ 1 / 100000000 := by
  intro row hrow
  have hgood : ∃ c ff : ℚ, row.closed_pnl = round8 c ∧ row.fee_funding = round8 ff ∧
      row.realized = round8 (c + ff) := by
    rcases process_positions_closed_trades_shape sendAlert feeRate incomeOf nowTs
        positions st with h | ⟨prev, acc1, h⟩
    · rw [h] at hrow
      exact absurd hrow (List.not_mem_nil row)
    · rw [h] at hrow
      exact foldClose_rows_good sendAlert feeRate incomeOf nowTs
        (buildCur positions)
        (fun row => ∃ c ff : ℚ, row.closed_pnl = round8 c ∧
          row.fee_funding = round8 ff ∧ row.realized = round8 (c + ff))
        (closeRow_conservation feeRate incomeOf nowTs)
        prev (acc1, []) (by intro r hr; exact absurd hr (List.not_mem_nil r))
        row hrow
  refine ⟨hgood, ?_⟩
  obtain ⟨c, ff, h1, h2, h3⟩ := hgood
  rw [h1, h2, h3]
  exact abs_round8_add_sub_le c ff

theorem process_single_close (sendAlert : Bool) (feeRate : ℚ)
    (incomeOf : String → List IncomeRec) (nowTs : String)
    (k : String) (o : Position) (s0 : Session) (st : Store)
    (hA : st.avail = []) (hI : st.initDone = true)
    (hOS : st.openState = [(k, o)]) (hS : alookup k st.sessions = some s0) :
    (process_positions sendAlert feeRate incomeOf nowTs [] st).2.1.closed_trades
        = [closeRow feeRate incomeOf nowTs s0 o] ∧
    (process_positions sendAlert feeRate incomeOf nowTs [] st).2.1.events
        = ⟨0, 0, 0, 1⟩ ∧
    (process_positions sendAlert feeRate incomeOf nowTs [] st).1.sessions
        = adel k st.sessions ∧
    (process_positions sendAlert feeRate incomeOf nowTs [] st).1.history
        = (closeRow feeRate incomeOf nowTs s0 o :: st.history).take 5000 ∧
    (process_positions sendAlert feeRate incomeOf nowTs [] st).1.openState = [] := by
  refine ⟨?_, ?_, ?_, ?_, ?_⟩ <;>
    simp [process_positions, openStateGet_nil, initDoneGet_nil, hA, hI, hOS, hS,
      buildCur, stepClose, sessGet_nil, sessDel_nil, histPush_nil, saveOpen_nil]

theorem closeRow_tiny_eval :
    closeRow 0 incomeTiny "t1" sessBTC pBTC = rowTiny := by
  have k1 : keepRec (normSym "BTCUSDT") recTinyFee = true := by decide
  have k2 : keepRec (normSym "BTCUSDT") recTinyPnl = true := by decide
  have f1 : isFeeType (typOf recTinyFee) = true := by decide
  have f2 : isFeeType (typOf recTinyPnl) = false := by decide
  have i1 : incOf recTinyPnl = 6 / 1000000000 := by
    norm_num [incOf, recTinyPnl, pyOrQ]
  have i2 : incOf recTinyFee = -(2 / 1000000000) := by
    norm_num [incOf, recTinyFee, pyOrQ]
  have hs : income_split "BTCUSDT" [recTinyPnl, recTinyFee]
      = some (6 / 1000000000, -(2 / 1000000000), 4 / 1000000000) := by
    simp only [income_split, List.isEmpty_cons, splitSums, k1, k2, f1, f2, i1, i2,
      if_true, if_false, Bool.false_eq_true]
    norm_num
  have r1 : round8 (3 / 500000000) = 1 / 100000000 := by
    rw [round8]
    norm_num [round_eq]
  have r2 : round8 (-(1 / 500000000)) = 0 := by
    rw [round8]
    norm_num [round_eq]
  have r3 : round8 (1 / 250000000) = 0 := by
    rw [round8]
    norm_num [round_eq]
  simp only [closeRow, incomeTiny, fee_calc, hs]
  norm_num [sessBTC, pBTC, rowTiny, closedEstimate, hs, r1, r2, r3, Trade.mk.injEq,
    max_eq_left]

theorem closeRow_fall_eval :
    closeRow (1 / 2000) (fun _ => []) "t1" sessBTC pBTC = rowFall := by
  have r0 : round8 0 = 0 := by
    rw [round8]
    norm_num [round_eq]
  have rneg : round8 (-1) = -1 := by
    rw [round8]
    norm_num [round_eq]
  simp only [closeRow, fee_calc, income_split, List.isEmpty_nil, if_true]
  norm_num [sessBTC, pBTC, rowFall, closedEstimate, r0, rneg, Trade.mk.injEq,
    max_eq_left]

/-- Counterexample to **C1** as stated: a cycle whose settlement records
carry sub-quantum amounts yields a stored row with
`closed_pnl = 1e-8`, `fee_funding = 0`, `realized = 0`: after the three
independent roundings the stored `realized` differs from the stored
`closed_pnl + fee_funding`. -/
theorem C1_counterexample :
    (process_positions false 0 incomeTiny "t1" [] stBTC).2.1.closed_trades
      = [rowTiny] ∧
    rowTiny.realized ≠ rowTiny.closed_pnl + rowTiny.fee_funding := by
  constructor
  · rw [(process_single_close false 0 incomeTiny "t1" kBTC pBTC sessBTC stBTC
      rfl rfl rfl (by decide)).1, closeRow_tiny_eval]
  · norm_num [rowTiny]

/-- Witness for the amended C1 at a concrete fallback close. -/
theorem C1_conservation_pre_rounding_witness :
    rowFall ∈ (process_positions false (1 / 2000) (fun _ => []) "t1" []
      stBTC).2.1.closed_trades ∧
    (∃ c ff : ℚ, rowFall.closed_pnl = round8 c ∧ rowFall.fee_funding = round8 ff ∧
      rowFall.realized = round8 (c + ff)) ∧
    |rowFall.realized - (rowFall.closed_pnl + rowFall.fee_funding)| ≤ 1 / 100000000 := by
  have hmem : rowFall ∈ (process_positions false (1 / 2000) (fun _ => []) "t1" []
      stBTC).2.1.closed_trades := by
    rw [(process_single_close false (1 / 2000) (fun _ => []) "t1" kBTC pBTC sessBTC
      stBTC rfl rfl rfl (by decide)).1, closeRow_fall_eval]
    simp
  exact ⟨hmem, C1_conservation_pre_rounding false (1 / 2000) (fun _ => []) "t1" []
    stBTC rowFall hmem⟩

theorem closeFold_skip (sendAlert : Bool) (feeRate : ℚ)
    (incomeOf : String → List IncomeRec) (nowTs : String)
    (cur : List (String × Position)) :
    ∀ (prev : List (String × Position)) (acc : LoopAcc × List Trade),
      (∀ ko ∈ prev, (alookup ko.1 cur).isSome) →
      prev.foldl (stepClose sendAlert feeRate incomeOf nowTs cur) acc = acc := by
  intro prev
  induction prev with
  | nil => intro acc _; rfl
  | cons ko tl ih =>
    intro acc h
    have hk : (alookup ko.1 cur).isSome := h ko (by simp)
    simp only [List.foldl_cons, stepClose, if_pos hk]
    exact ih acc (fun ko' hko' => h ko' (by simp [hko']))

theorem sessGet_fst (k : String) (st : Store) (h : st.avail = []) :
    (sessGet k st).1 = alookup k st.sessions := by
  simp [sessGet, Store.take, h]

theorem sessGet_snd_sessions (k : String) (st : Store) :
    (sessGet k st).2.sessions = st.sessions := by
  cases h : st.avail <;> simp [sessGet, Store.take, h]

theorem sessGet_snd_initDone (k : String) (st : Store) :
    (sessGet k st).2.initDone = st.initDone := by
  cases h : st.avail <;> simp [sessGet, Store.take, h]

theorem sessGet_snd_openState (k : String) (st : Store) :
    (sessGet k st).2.openState = st.openState := by
  cases h : st.avail <;> simp [sessGet, Store.take, h]

theorem sessGet_snd_history (k : String) (st : Store) :
    (sessGet k st).2.history = st.history := by
  cases h : st.avail <;> simp [sessGet, Store.take, h]

theorem sessGet_snd_avail (k : String) (st : Store) (h : st.avail = []) :
    (sessGet k st).2.avail = [] := by
  simp [sessGet, Store.take, h]

theorem sessSet_initDone (k : String) (v : Session) (st : Store) :
    (sessSet k v st).initDone = st.initDone := by
  cases h : st.avail <;> simp [sessSet, Store.take, h]

theorem sessSet_openState (k : String) (v : Session) (st : Store) :
    (sessSet k v st).openState = st.openState := by
  cases h : st.avail <;> simp [sessSet, Store.take, h]

theorem sessSet_history (k : String) (v : Session) (st : Store) :
    (sessSet k v st).history = st.history := by
  cases h : st.avail <;> simp [sessSet, Store.take, h]

theorem sessSet_avail (k : String) (v : Session) (st : Store) (h : st.avail = []) :
    (sessSet k v st).avail = [] := by
  simp [sessSet, Store.take, h]

theorem sessSet_sessions (k : String) (v : Session) (st : Store) (h : st.avail = []) :
    (sessSet k v st).sessions = aset k v st.sessions := by
  simp [sessSet, Store.take, h]

theorem noChangeFold (sendAlert : Bool) (nowTs : String)
    (prev : List (String × Position)) :
    ∀ (l : List (String × Position)) (acc : LoopAcc), acc.store.avail = [] →
      (∀ kp ∈ l, ∃ o, alookup kp.1 prev = some o ∧ |kp.2.qty - o.qty| ≤ eps) →
      (l.foldl (stepCur sendAlert nowTs prev) acc).events = acc.events ∧
      (l.foldl (stepCur sendAlert nowTs prev) acc).alerts = acc.alerts ∧
      (l.foldl (stepCur sendAlert nowTs prev) acc).store.avail = [] ∧
      (l.foldl (stepCur sendAlert nowTs prev) acc).store.initDone
          = acc.store.initDone ∧
      (l.foldl (stepCur sendAlert nowTs prev) acc).store.openState
          = acc.store.openState ∧
      (l.foldl (stepCur sendAlert nowTs prev) acc).store.history
          = acc.store.history ∧
      (l.foldl (stepCur sendAlert nowTs prev) acc).store.sessions
          = l.foldl (fun ss kp =>
              aset kp.1 (refreshSession
                ((alookup kp.1 ss).getD (defaultSessionCur nowTs kp.2))
                kp.2 kp.2.qty) ss) acc.store.sessions := by
  intro l
  induction l with
  | nil => intro acc h _; exact ⟨rfl, rfl, h, rfl, rfl, rfl, rfl⟩
  | cons kp tl ih =>
    intro acc hAv hno
    obtain ⟨o, ho, hqe⟩ := hno kp (by simp)
    have habs := abs_le.mp hqe
    have hnotadd : ¬ (kp.2.qty > o.qty + eps) := by
      push_neg
      linarith [habs.2]
    have hnotred : ¬ (kp.2.qty + eps < o.qty) := by
      push_neg
      linarith [habs.1]
    have h1 : (stepCur sendAlert nowTs prev acc kp).events = acc.events := by
      simp [stepCur, ho, hnotadd, hnotred]
    have h2 : (stepCur sendAlert nowTs prev acc kp).alerts = acc.alerts := by
      simp [stepCur, ho, hnotadd, hnotred]
    have h3 : (stepCur sendAlert nowTs prev acc kp).store.avail = [] := by
      simp [stepCur, ho, hnotadd, hnotred, sessSet_avail, sessGet_snd_avail, hAv]
    have h4 : (stepCur sendAlert nowTs prev acc kp).store.initDone
        = acc.store.initDone := by
      simp [stepCur, ho, hnotadd, hnotred, sessSet_initDone, sessGet_snd_initDone]
    have h5 : (stepCur sendAlert nowTs prev acc kp).store.openState
        = acc.store.openState := by
      simp [stepCur, ho, hnotadd, hnotred, sessSet_openState, sessGet_snd_openState]
    have h6 : (stepCur sendAlert nowTs prev acc kp).store.history
        = acc.store.history := by
      simp [stepCur, ho, hnotadd, hnotred, sessSet_history, sessGet_snd_history]
    have h7 : (stepCur sendAlert nowTs prev acc kp).store.sessions
        = aset kp.1 (refreshSession
            ((alookup kp.1 acc.store.sessions).getD (defaultSessionCur nowTs kp.2))
            kp.2 kp.2.qty) acc.store.sessions := by
      simp [stepCur, ho, hnotadd, hnotred, sessSet_sessions, sessGet_snd_avail, hAv,
        sessGet_snd_sessions, sessGet_fst]
    obtain ⟨e1, e2, e3, e4, e5, e6, e7⟩ := ih (stepCur sendAlert nowTs prev acc kp)
      h3 (fun kp' hkp' => hno kp' (by simp [hkp']))
    simp only [List.foldl_cons]
    exact ⟨e1.trans h1, e2.trans h2, e3, e4.trans h4, e5.trans h5, e6.trans h6,
      by rw [e7, h7]⟩

theorem foldRefresh_lookup (nowTs : String) :
    ∀ (l : List (String × Position)) (ss : List (String × Session)),
      (l.map Prod.fst).Nodup → ∀ kp ∈ l,
      alookup kp.1 (l.foldl (fun ss kp =>
          aset kp.1 (refreshSession
            ((alookup kp.1 ss).getD (defaultSessionCur nowTs kp.2))
            kp.2 kp.2.qty) ss) ss)
        = some (refreshSession
            ((alookup kp.1 ss).getD (defaultSessionCur nowTs kp.2))
            kp.2 kp.2.qty) := by
  intro l
  induction l with
  | nil => intro ss _ kp h; exact absurd h (List.not_mem_nil kp)
  | cons hd tl ih =>
    intro ss hnd kp hmem
    simp only [List.map_cons, List.nodup_cons] at hnd
    simp only [List.foldl_cons]
    rcases List.mem_cons.mp hmem with heq | hkp
    · subst heq
      rw [alookup_foldl_preserved kp.1 tl _ _
        (fun kp' h' hEq => hnd.1 (hEq ▸ List.mem_map.mpr ⟨kp', h', rfl⟩))]
      rw [alookup_aset_self]
    · have hne : hd.1 ≠ kp.1 :=
        fun hEq => hnd.1 (hEq ▸ List.mem_map.mpr ⟨kp, hkp, rfl⟩)
      rw [ih _ hnd.2 kp hkp, alookup_aset_ne _ _ _ _ hne]

theorem process_positions_main (sendAlert : Bool) (feeRate : ℚ)
    (incomeOf : String → List IncomeRec) (nowTs : String)
    (positions : List Position) (st : Store)
    (hA : st.avail = []) (hI : st.initDone = true) :
    process_positions sendAlert feeRate incomeOf nowTs positions st =
      (let acc1 := (buildCur positions).foldl (stepCur sendAlert nowTs st.openState)
          { store := { st with trace := (st.trace ++
              [StoreOp.getOp "state:open_positions"]) ++
              [StoreOp.getOp "state:init_done"] },
            events := ⟨0, 0, 0, 0⟩, alerts := [] };
       let accRows := st.openState.foldl
          (stepClose sendAlert feeRate incomeOf nowTs (buildCur positions))
          (acc1, []);
       (saveOpen (buildCur positions) accRows.1.store,
        { ok := true, initialSync := false,
          positions_now := (buildCur positions).length,
          events := accRows.1.events, closed_trades := accRows.2 },
        accRows.1.alerts)) := by
  simp [process_positions, openStateGet_nil, initDoneGet_nil, hA, hI]

/-- **C3 (amended)**: after initial sync, a cycle whose every position key
matches the persisted snapshot with a quantity difference of at most the
epsilon tolerance (in particular an unchanged raw list) produces zero
open/add/reduce/close events, no trades and no alerts; every existing
Session Record keeps its `total_entry_value` and `total_exit_value` and is
refreshed exactly in its `last_*` cache fields together with
`margin_mode` and `leverage`. -/
theorem C3_no_change_cycle (sendAlert : Bool) (feeRate : ℚ)
    (incomeOf : String → List IncomeRec) (nowTs : String)
    (positions : List Position) (st : Store)
    (hA : st.avail = []) (hI : st.initDone = true)
    (hq : ∀ kp ∈ buildCur positions, ∃ o, alookup kp.1 st.openState = some o ∧
      |kp.2.qty - o.qty| ≤ eps)
    (hprev : ∀ ko ∈ st.openState, (alookup ko.1 (buildCur positions)).isSome) :
    (process_positions sendAlert feeRate incomeOf nowTs positions st).2.1.events
        = ⟨0, 0, 0, 0⟩ ∧
    (process_positions sendAlert feeRate incomeOf nowTs positions
        st).2.1.closed_trades = [] ∧
    (process_positions sendAlert feeRate incomeOf nowTs positions st).2.2 = [] ∧
    ∀ kp ∈ buildCur positions, ∀ s0, alookup kp.1 st.sessions = some s0 →
      alookup kp.1 (process_positions sendAlert feeRate incomeOf nowTs positions
          st).1.sessions
        = some (refreshSession s0 kp.2 kp.2.qty) ∧
      (refreshSession s0 kp.2 kp.2.qty).total_entry_value = s0.total_entry_value ∧
      (refreshSession s0 kp.2 kp.2.qty).total_exit_value = s0.total_exit_value := by
  rw [process_positions_main sendAlert feeRate incomeOf nowTs positions st hA hI]
  simp only []
  obtain ⟨e1, e2, e3, e4, e5, e6, e7⟩ := noChangeFold sendAlert nowTs st.openState
    (buildCur positions)
    { store := { st with trace := (st.trace ++
        [StoreOp.getOp "state:open_positions"]) ++
        [StoreOp.getOp "state:init_done"] },
      events := ⟨0, 0, 0, 0⟩, alerts := [] } hA hq
  rw [closeFold_skip sendAlert feeRate incomeOf nowTs (buildCur positions)
    st.openState _ hprev]
  refine ⟨e1, rfl, e2, ?_⟩
  intro kp hkp s0 hs0
  rw [saveOpen_sessions, e7]
  have hlk := foldRefresh_lookup nowTs (buildCur positions) st.sessions
    (buildCur_keys_nodup positions) kp hkp
  rw [show ({ st with trace := (st.trace ++
      [StoreOp.getOp "state:open_positions"]) ++
      [StoreOp.getOp "state:init_done"] } : Store).sessions = st.sessions from rfl]
  rw [hlk, hs0]
  exact ⟨rfl, rfl, rfl⟩

/-- Counterexample to **C3** as stated: with the raw position list
unchanged from the persisted snapshot, the cycle produces zero events but
rewrites the Session Record's `leverage` (a non-`last_*` field) from its
stored value 5 to the position's current value 10. -/
theorem C3_counterexample :
    stLev5.openState = buildCur [pBTC] ∧
    (alookup kBTC stLev5.sessions).map Session.leverage = some 5 ∧
    (process_positions true 0 (fun _ => []) "t2" [pBTC] stLev5).2.1.events
      = ⟨0, 0, 0, 0⟩ ∧
    (alookup kBTC (process_positions true 0 (fun _ => []) "t2" [pBTC]
        stLev5).1.sessions).map Session.leverage = some 10 := by
  have hq : ∀ kp ∈ buildCur [pBTC], ∃ o,
      alookup kp.1 stLev5.openState = some o ∧ |kp.2.qty - o.qty| ≤ eps := by
    intro kp hkp
    have hkp' : kp = (kBTC, pBTC) := by
      have : buildCur [pBTC] = [(kBTC, pBTC)] := by decide
      rw [this] at hkp
      simpa using hkp
    subst hkp'
    exact ⟨pBTC, by decide, by norm_num [pBTC, eps]⟩
  obtain ⟨e1, e2, e3, e4, e5, e6, e7⟩ := noChangeFold true "t2" stLev5.openState
    (buildCur [pBTC])
    { store := { stLev5 with trace := (stLev5.trace ++
        [StoreOp.getOp "state:open_positions"]) ++
        [StoreOp.getOp "state:init_done"] },
      events := ⟨0, 0, 0, 0⟩, alerts := [] } rfl hq
  refine ⟨by decide, by decide, ?_, ?_⟩
  · rw [process_positions_main true 0 (fun _ => []) "t2" [pBTC] stLev5 rfl rfl]
    simp only []
    rw [closeFold_skip true 0 (fun _ => []) "t2" (buildCur [pBTC])
      stLev5.openState _ (by decide)]
    exact e1
  · rw [process_positions_main true 0 (fun _ => []) "t2" [pBTC] stLev5 rfl rfl]
    simp only []
    rw [closeFold_skip true 0 (fun _ => []) "t2" (buildCur [pBTC])
      stLev5.openState _ (by decide)]
    rw [saveOpen_sessions, e7]
    have hlk := foldRefresh_lookup "t2" (buildCur [pBTC]) stLev5.sessions
      (buildCur_keys_nodup [pBTC]) (kBTC, pBTC) (by decide)
    rw [show ({ stLev5 with trace := (stLev5.trace ++
        [StoreOp.getOp "state:open_positions"]) ++
        [StoreOp.getOp "state:init_done"] } : Store).sessions = stLev5.sessions
      from rfl]
    rw [hlk, show alookup kBTC stLev5.sessions = some sessLev5 from by decide]
    rfl

/-- Witness for the amended C3: a quantity change of half the epsilon
tolerance produces no events and leaves the session accumulators
untouched. -/
theorem C3_no_change_cycle_witness :
    stBTC.avail = [] ∧ stBTC.initDone = true ∧
    |pBTChalfEps.qty - pBTC.qty| ≤ eps ∧
    (process_positions true 0 (fun _ => []) "t3" [pBTChalfEps] stBTC).2.1.events
      = ⟨0, 0, 0, 0⟩ ∧
    (process_positions true 0 (fun _ => []) "t3" [pBTChalfEps]
      stBTC).2.1.closed_trades = [] ∧
    (process_positions true 0 (fun _ => []) "t3" [pBTChalfEps] stBTC).2.2 = [] ∧
    alookup kBTC (process_positions true 0 (fun _ => []) "t3" [pBTChalfEps]
        stBTC).1.sessions
      = some (refreshSession sessBTC pBTChalfEps pBTChalfEps.qty) ∧
    (refreshSession sessBTC pBTChalfEps pBTChalfEps.qty).total_entry_value
      = sessBTC.total_entry_value ∧
    (refreshSession sessBTC pBTChalfEps pBTChalfEps.qty).total_exit_value
      = sessBTC.total_exit_value := by
  have hbc : buildCur [pBTChalfEps] = [(kBTC, pBTChalfEps)] := rfl
  have hqe : |pBTChalfEps.qty - pBTC.qty| ≤ eps := by
    norm_num [pBTChalfEps, pBTC, eps]
    rw [abs_of_nonneg (by norm_num)]
    norm_num
  have hq : ∀ kp ∈ buildCur [pBTChalfEps], ∃ o,
      alookup kp.1 stBTC.openState = some o ∧ |kp.2.qty - o.qty| ≤ eps := by
    intro kp hkp
    rw [hbc] at hkp
    simp only [List.mem_singleton] at hkp
    subst hkp
    exact ⟨pBTC, rfl, hqe⟩
  have hprev : ∀ ko ∈ stBTC.openState,
      (alookup ko.1 (buildCur [pBTChalfEps])).isSome := by
    intro ko hko
    have : ko = (kBTC, pBTC) := by simpa [stBTC] using hko
    subst this
    rfl
  have h := C3_no_change_cycle true 0 (fun _ => []) "t3" [pBTChalfEps] stBTC
    rfl rfl hq hprev
  have hmem : (kBTC, pBTChalfEps) ∈ buildCur [pBTChalfEps] := by
    rw [hbc]
    simp
  have hlast := h.2.2.2 (kBTC, pBTChalfEps) hmem sessBTC rfl
  exact ⟨rfl, rfl, hqe, h.1, h.2.1, h.2.2.1, hlast.1, hlast.2.1, hlast.2.2⟩

theorem trace_sessGet (k : String) (st : Store) :
    (sessGet k st).2.trace
      = st.trace ++ [StoreOp.getOp ("sess:position:" ++ k)] := by
  cases h : st.avail <;> simp [sessGet, Store.take, h]

theorem trace_sessSet (k : String) (v : Session) (st : Store) :
    (sessSet k v st).trace
      = st.trace ++ [StoreOp.setOp ("sess:position:" ++ k)] := by
  cases h : st.avail <;> simp [sessSet, Store.take, h]

theorem trace_sessDel (k : String) (st : Store) :
    (sessDel k st).trace
      = st.trace ++ [StoreOp.delOp ("sess:position:" ++ k)] := by
  cases h : st.avail <;> simp [sessDel, Store.take, h]

theorem trace_saveOpen (m : List (String × Position)) (st : Store) :
    (saveOpen m st).trace
      = st.trace ++ [StoreOp.setOp "state:open_positions"] := by
  cases h : st.avail <;> simp [saveOpen, Store.take, h]

theorem trace_histPush (row : Trade) (st : Store) :
    (histPush row st).trace
      = st.trace ++ [StoreOp.lpushOp "history:trades" row,
                     StoreOp.ltrimOp "history:trades"] := by
  rcases h : st.avail with _ | ⟨b, bs⟩
  · simp [histPush, Store.take, h]
  · rcases bs with _ | ⟨b2, bs2⟩ <;> simp [histPush, Store.take, h]

theorem stepClose_skip (sendAlert : Bool) (feeRate : ℚ)
    (incomeOf : String → List IncomeRec) (nowTs : String)
    (cur : List (String × Position)) (acc : LoopAcc × List Trade)
    (ko : String × Position) (hk : (alookup ko.1 cur).isSome = true) :
    stepClose sendAlert feeRate incomeOf nowTs cur acc ko = acc := by
  simp [stepClose, hk]

theorem stepClose_nonskip (sendAlert : Bool) (feeRate : ℚ)
    (incomeOf : String → List IncomeRec) (nowTs : String)
    (cur : List (String × Position)) (acc : LoopAcc × List Trade)
    (ko : String × Position) (hk : ¬ (alookup ko.1 cur).isSome = true) :
    (stepClose sendAlert feeRate incomeOf nowTs cur acc ko).2
        = acc.2 ++ [closeRow feeRate incomeOf nowTs
            (((sessGet ko.1 acc.1.store).1).getD (defaultSessionClose nowTs ko.2))
            ko.2] ∧
    (stepClose sendAlert feeRate incomeOf nowTs cur acc ko).1.store.trace
        = acc.1.store.trace ++
          [StoreOp.getOp ("sess:position:" ++ ko.1),
           StoreOp.lpushOp "history:trades" (closeRow feeRate incomeOf nowTs
             (((sessGet ko.1 acc.1.store).1).getD (defaultSessionClose nowTs ko.2))
             ko.2),
           StoreOp.ltrimOp "history:trades",
           StoreOp.delOp ("sess:position:" ++ ko.1)] := by
  constructor
  · simp [stepClose, hk]
  · simp only [stepClose, if_neg hk]
    rw [trace_sessDel, trace_histPush, trace_sessGet]
    simp

theorem foldClose_push_before_del (sendAlert : Bool) (feeRate : ℚ)
    (incomeOf : String → List IncomeRec) (nowTs : String)
    (cur : List (String × Position)) :
    ∀ (prev : List (String × Position)) (acc : LoopAcc × List Trade),
      (∀ row ∈ acc.2, ∃ k, List.Sublist
        [StoreOp.lpushOp "history:trades" row,
         StoreOp.delOp ("sess:position:" ++ k)] acc.1.store.trace) →
      ∀ row ∈ (prev.foldl (stepClose sendAlert feeRate incomeOf nowTs cur) acc).2,
        ∃ k, List.Sublist
          [StoreOp.lpushOp "history:trades" row,
           StoreOp.delOp ("sess:position:" ++ k)]
          (prev.foldl (stepClose sendAlert feeRate incomeOf nowTs cur)
            acc).1.store.trace := by
  intro prev
  induction prev with
  | nil => intro acc h row hrow; exact h row hrow
  | cons ko tl ih =>
    intro acc h
    simp only [List.foldl_cons]
    apply ih
    by_cases hk : (alookup ko.1 cur).isSome = true
    · rw [stepClose_skip sendAlert feeRate incomeOf nowTs cur acc ko hk]
      exact h
    · obtain ⟨hrows, htrace⟩ :=
        stepClose_nonskip sendAlert feeRate incomeOf nowTs cur acc ko hk
      intro row hrow
      rw [hrows] at hrow
      rw [htrace]
      rcases List.mem_append.mp hrow with hold | hnew
      · obtain ⟨k, hsub⟩ := h row hold
        exact ⟨k, hsub.trans (List.sublist_append_left _ _)⟩
      · rw [List.mem_singleton] at hnew
        subst hnew
        refine ⟨ko.1, ?_⟩
        apply List.Sublist.trans ?_ (List.sublist_append_right _ _)
        apply List.Sublist.cons
        apply List.Sublist.cons₂
        apply List.Sublist.cons
        apply List.Sublist.cons₂
        exact List.Sublist.slnil

theorem process_positions_shape_full (sendAlert : Bool) (feeRate : ℚ)
    (incomeOf : String → List IncomeRec) (nowTs : String)
    (positions : List Position) (st : Store) :
    (process_positions sendAlert feeRate incomeOf nowTs positions st).2.1.closed_trades
        = [] ∨
    ∃ (prev : List (String × Position)) (acc1 : LoopAcc),
      (process_positions sendAlert feeRate incomeOf nowTs positions
          st).2.1.closed_trades
        = (List.foldl (stepClose sendAlert feeRate incomeOf nowTs
            (buildCur positions)) (acc1, []) prev).2 ∧
      (process_positions sendAlert feeRate incomeOf nowTs positions st).1
        = saveOpen (buildCur positions)
            (List.foldl (stepClose sendAlert feeRate incomeOf nowTs
              (buildCur positions)) (acc1, []) prev).1.store := by
  unfold process_positions
  rcases hOS : openStateGet st with ⟨prev0, st1⟩
  rcases hID : initDoneGet st1 with ⟨idone, st2⟩
  by_cases hid : idone = false
  · left
    simp [hID, hid]
  · right
    refine ⟨prev0, List.foldl (stepCur sendAlert nowTs prev0)
      { store := st2, events := ⟨0, 0, 0, 0⟩, alerts := [] } (buildCur positions),
      ?_, ?_⟩ <;> simp [hID, hid]

/-- **C8 (amended)**: for every close event the Session Record delete is
issued only after the close Trade's `LPUSH` has been attempted: the trace
of every cycle contains the push of the finalized row followed (later)
by the delete of a session key.  Success of the push is not checked, so
the record is deleted even when the append fails. -/
theorem C8_delete_follows_append_attempt (sendAlert : Bool) (feeRate : ℚ)
    (incomeOf : String → List IncomeRec) (nowTs : String)
    (positions : List Position) (st : Store) :
    ∀ row ∈ (process_positions sendAlert feeRate incomeOf nowTs positions
        st).2.1.closed_trades,
      ∃ k, List.Sublist
        [StoreOp.lpushOp "history:trades" row,
         StoreOp.delOp ("sess:position:" ++ k)]
        (process_positions sendAlert feeRate incomeOf nowTs positions st).1.trace := by
  intro row hrow
  rcases process_positions_shape_full sendAlert feeRate incomeOf nowTs positions st
    with h | ⟨prev, acc1, hrows, hstore⟩
  · rw [h] at hrow
    exact absurd hrow (List.not_mem_nil row)
  · rw [hrows] at hrow
    obtain ⟨k, hsub⟩ := foldClose_push_before_del sendAlert feeRate incomeOf nowTs
      (buildCur positions) prev (acc1, [])
      (fun r hr => absurd hr (List.not_mem_nil r)) row hrow
    refine ⟨k, ?_⟩
    rw [hstore, trace_saveOpen]
    exact hsub.trans (List.sublist_append_left _ _)

/-- Witness for the amended C8 at a concrete close. -/
theorem C8_delete_follows_append_attempt_witness :
    rowFall ∈ (process_positions false (1 / 2000) (fun _ => []) "t1" []
      stBTC).2.1.closed_trades ∧
    ∃ k, List.Sublist
      [StoreOp.lpushOp "history:trades" rowFall,
       StoreOp.delOp ("sess:position:" ++ k)]
      (process_positions false (1 / 2000) (fun _ => []) "t1" [] stBTC).1.trace := by
  have hmem : rowFall ∈ (process_positions false (1 / 2000) (fun _ => []) "t1" []
      stBTC).2.1.closed_trades := by
    rw [(process_single_close false (1 / 2000) (fun _ => []) "t1" kBTC pBTC sessBTC
      stBTC rfl rfl rfl (by decide)).1, closeRow_fall_eval]
    simp
  exact ⟨hmem, C8_delete_follows_append_attempt false (1 / 2000) (fun _ => []) "t1"
    [] stBTC rowFall hmem⟩

/-- Counterexample to **C8** as stated: with the store down exactly for the
`LPUSH` that appends the close Trade, the row never reaches the durable
history, yet the Session Record is still deleted. -/
theorem C8_counterexample :
    stPushFail.sessions = [(kBTC, sessBTC)] ∧
    (process_positions false (1 / 2000) (fun _ => []) "t1" []
        stPushFail).2.1.closed_trades = [rowFall] ∧
    (process_positions false (1 / 2000) (fun _ => []) "t1" []
        stPushFail).1.history = [] ∧
    alookup kBTC (process_positions false (1 / 2000) (fun _ => []) "t1" []
        stPushFail).1.sessions = none := by
  refine ⟨rfl, ?_, ?_, ?_⟩
  · simpa [process_positions, openStateGet, initDoneGet, Store.take, stepClose,
      sessGet, histPush, sessDel, saveOpen, stPushFail, buildCur, alookup, adel,
      kBTC, pkey] using closeRow_fall_eval
  · simp [process_positions, openStateGet, initDoneGet, Store.take, stepClose,
      sessGet, histPush, sessDel, saveOpen, stPushFail, buildCur, alookup, adel,
      kBTC, pkey]
  · simp [process_positions, openStateGet, initDoneGet, Store.take, stepClose,
      sessGet, histPush, sessDel, saveOpen, stPushFail, buildCur, alookup, adel,
      kBTC, pkey]
